import Mathlib

/-!
Verification of the inventory/project consistency engine of the
bdsm-component-manager repository.

The SQLite-backed store (`database.py`), the pure buildability check
(`logic.py`) and the front-end delete handler (`cmd.py`) are shallowly
embedded below.  Tables become lists of records kept in insertion order
(SQLite rowid order for these tables), `AUTOINCREMENT` becomes an explicit
next-id counter, SQL text values become `List Char`, and each mutating
operation becomes a function from the database state to the new state
paired with its outcome.  A raised Python exception corresponds to an
`Except.error` outcome, and since every operation either commits all of
its statements or rolls back (or raises before any statement ran), an
error outcome returns the pre-call state.  The `cmd.py` delete handler
commits twice; its embedding therefore also returns the ordered list of
committed snapshots so that transaction-boundary claims can be stated.
-/

deriving instance DecidableEq for Except

namespace Inv

/-- SQL TEXT values, embedded as lists of characters. -/
abbrev Str := List Char

/-- Strips leading spaces, first half of SQL `TRIM`. -/
def ltrim (s : Str) : Str := s.dropWhile (fun c => c = ' ')

/-- Strips trailing spaces, second half of SQL `TRIM`. -/
def rtrim (s : Str) : Str := (s.reverse.dropWhile (fun c => c = ' ')).reverse

/-- SQL `TRIM(s)`: strips leading and trailing spaces. -/
def trim (s : Str) : Str := rtrim (ltrim s)

/-- Literal contiguous substring occurrence (exact characters, no
wildcards).  This is NOT SQLite's LIKE — that is `likeContains` below —
but is what an exact-token tag check would need, and what SQL `REPLACE`
works on. -/
def isSubstring : Str → Str → Bool
  | n, [] => n.isEmpty
  | n, c :: t => n.isPrefixOf (c :: t) || isSubstring n t

/-- ASCII case folding: SQLite's default LIKE compares the letters
`A`-`Z` case-insensitively and every other character exactly. -/
def lowerAscii (c : Char) : Char :=
  if 'A' ≤ c ∧ c ≤ 'Z' then Char.ofNat (c.toNat + 32) else c

/-- One LIKE pattern character against one text character: `_` in the
pattern matches ANY single character; anything else matches up to ASCII
case. -/
def likeCharMatch (pc c : Char) : Bool :=
  pc = '_' ∨ lowerAscii pc = lowerAscii c

/-- Matches a `%`-free LIKE pattern against a prefix of the text. -/
def likeHere : Str → Str → Bool
  | [], _ => true
  | _ :: _, [] => false
  | pc :: pr, c :: cr => likeCharMatch pc c && likeHere pr cr

/-- SQL `s LIKE '%' || pat || '%'` for a `%`-free pattern `pat`: the
pattern matches somewhere inside `s`, with `_` as a single-character
wildcard and ASCII-case-insensitive letter comparison.  Every project
tag `proj_<pid>` contains `_`, so this is strictly weaker than literal
substring occurrence of the tag. -/
def likeContains (pat : Str) : Str → Bool
  | [] => likeHere pat []
  | c :: t => likeHere pat (c :: t) || likeContains pat t

/-- SQL `REPLACE(s, pat, rep)`: replace every occurrence of `pat`,
scanning left to right, non-overlapping; an empty pattern leaves `s`
unchanged (SQLite behaviour). -/
def replaceAll (pat rep : Str) (s : Str) : Str :=
  match s with
  | [] => []
  | c :: t =>
    if pat ≠ [] ∧ pat.isPrefixOf (c :: t) = true then
      rep ++ replaceAll pat rep (t.drop (pat.length - 1))
    else
      c :: replaceAll pat rep t
termination_by s.length
decreasing_by
  · simp only [List.length_cons]
    have : (t.drop (pat.length - 1)).length ≤ t.length := by
      rw [List.length_drop]; omega
    omega
  · simp only [List.length_cons]; omega

/-- Splits a string at every space character (boundary pieces included). -/
def splitSp : Str → List Str
  | [] => [[]]
  | c :: t =>
    match splitSp t with
    | [] => [[c]]
    | h :: r => if c = ' ' then [] :: h :: r else (c :: h) :: r

/-- The space-separated tokens of a tag string (empty pieces dropped). -/
def tokens (s : Str) : List Str := (splitSp s).filter (fun t => t ≠ [])

/-- Decimal digit character, as Python `str` renders one digit. -/
def digitCh (k : Nat) : Char :=
  if k = 0 then '0' else if k = 1 then '1' else if k = 2 then '2'
  else if k = 3 then '3' else if k = 4 then '4' else if k = 5 then '5'
  else if k = 6 then '6' else if k = 7 then '7' else if k = 8 then '8'
  else '9'

/-- Accumulator loop of the decimal rendering, fuelled by the number itself. -/
def natToCharsAux : Nat → Nat → Str → Str
  | 0, _, acc => acc
  | fuel + 1, n, acc =>
    let d := digitCh (n % 10)
    if n < 10 then d :: acc else natToCharsAux fuel (n / 10) (d :: acc)

/-- Decimal rendering of a natural number, as Python `str(n)`. -/
def natToChars (n : Nat) : Str := natToCharsAux (n + 1) n []

/-- Python `str` on an `int`. -/
def intToChars (i : Int) : Str :=
  if i < 0 then '-' :: natToChars i.natAbs else natToChars i.toNat

/-- The Python tag `f"proj_{project_id}"` for a project id. -/
def projTag (pid : Nat) : Str := 'p' :: 'r' :: 'o' :: 'j' :: '_' :: natToChars pid

/-- A row of the `components` table / the `Component` dataclass of
`models.py`.  `quantity` is an `Int` so that the schema constraint
`CHECK(quantity >= 0)` is a real statement about the model. -/
structure Component where
  id : Nat
  type : Str
  name : Str
  quantity : Int
  package : Str
  comment : Str
  manufacturer : Str
  store_links : Str
  location : Str
  tags : Str
  projects : Str
deriving DecidableEq

/-- The `status` column of `projects`, restricted by its CHECK constraint. -/
inductive PStatus where
  | active
  | completed
  | archived
deriving DecidableEq

/-- A row of the `projects` table / the `Project` dataclass. -/
structure Project where
  id : Nat
  name : Str
  description : Str
  created_at : Str
  status : PStatus
deriving DecidableEq

/-- A row of the `project_components` junction table. -/
structure ProjectComponent where
  project_id : Nat
  component_id : Nat
  quantity : Int
deriving DecidableEq

/-- The whole persistent state: the three tables in rowid (insertion)
order plus the AUTOINCREMENT counters. -/
structure DB where
  components : List Component
  projects : List Project
  project_components : List ProjectComponent
  next_component_id : Nat
  next_project_id : Nat
deriving DecidableEq

/-- Errors raised by the store: `integrity` stands for
`sqlite3.IntegrityError` (a CHECK or foreign-key violation), `valueErr`
for a Python `ValueError` with its message. -/
inductive DbErr where
  | integrity
  | valueErr (msg : Str)
deriving DecidableEq

/-- The ASCII apostrophe (used inside one error message). -/
def apos : Char := Char.ofNat 39

/-- Embeds `SELECT id, quantity FROM components WHERE type = ? AND name = ? AND package = ?`,
returning the first matching row. -/
def findByKey (db : DB) (t n p : Str) : Option Component :=
  db.components.find? (fun c => c.type = t ∧ c.name = n ∧ c.package = p)

/-- Embeds `ComponentInventoryDB.add_component`: merge on a duplicate
(type, name, package) key, otherwise insert a fresh row.  The candidate's
`id` field is ignored, as the SQL INSERT column list omits `id`.  A write
that would leave a stored quantity negative violates
`CHECK(quantity >= 0)` and raises `IntegrityError`, applying nothing. -/
def add_component (db : DB) (comp : Component) : DB × Except DbErr Nat :=
  match findByKey db comp.type comp.name comp.package with
  | some existing =>
    let newQty := existing.quantity + comp.quantity
    if newQty < 0 then
      (db, .error .integrity)
    else
      ({db with components :=
          db.components.map (fun c =>
            if c.id = existing.id then {c with quantity := newQty} else c)},
       .ok existing.id)
  | none =>
    if comp.quantity < 0 then
      (db, .error .integrity)
    else
      ({db with
          components := db.components ++ [{comp with id := db.next_component_id}],
          next_component_id := db.next_component_id + 1},
       .ok db.next_component_id)

/-- Embeds `ComponentInventoryDB.get_component`. -/
def get_component (db : DB) (cid : Nat) : Option Component :=
  db.components.find? (fun c => c.id = cid)

/-- Error message of `delete_component` on a referenced component. -/
def usedMsg : Str := "Component is used in a project and cannot be deleted.".toList

/-- Embeds `ComponentInventoryDB.delete_component`: refuses (raising
`ValueError`) when any `project_components` row references the id,
otherwise deletes the row; the boolean is `cursor.rowcount > 0`. -/
def delete_component (db : DB) (cid : Nat) : DB × Except DbErr Bool :=
  if db.project_components.any (fun l => l.component_id = cid) then
    (db, .error (.valueErr usedMsg))
  else
    ({db with components := db.components.filter (fun c => c.id ≠ cid)},
     .ok (db.components.any (fun c => c.id = cid)))

/-- Embeds `ComponentInventoryDB.create_project`: returns the existing id when
the name is taken, otherwise inserts.  `now` stands for the
`CURRENT_TIMESTAMP` default filled in by the engine. -/
def create_project (db : DB) (name descr now : Str) : DB × Nat :=
  match db.projects.find? (fun p => p.name = name) with
  | some p => (db, p.id)
  | none =>
    ({db with
        projects := db.projects ++ [⟨db.next_project_id, name, descr, now, .active⟩],
        next_project_id := db.next_project_id + 1},
     db.next_project_id)

/-- Embeds `ComponentInventoryDB.get_project`. -/
def get_project (db : DB) (pid : Nat) : Option Project :=
  db.projects.find? (fun p => p.id = pid)

/-- Error message for a missing component in `add_component_to_project`. -/
def compMissingMsg (cid : Nat) : Str :=
  "Component ID ".toList ++ natToChars cid ++ " doesn".toList ++ apos :: "t exist".toList

/-- Error message for a non-positive quantity in `add_component_to_project`. -/
def qtyMsg : Str := "Quantity must be positive".toList

/-- Embeds `ComponentInventoryDB.add_component_to_project`: validates the
component and the quantity (raising `ValueError`), then
`INSERT OR REPLACE`s the link row (SQLite re-inserts the replaced row at
the end) and appends the `proj_<pid>` tag to the component's `projects`
string, but only `WHERE ... NOT LIKE '%' || tag || '%'` — a LIKE
pattern test in which the tag's `_` is a single-character wildcard and
letters compare case-insensitively (`likeContains`).  A missing project
violates the foreign key, which is caught, rolled back and reported as
`False`. -/
def add_component_to_project (db : DB) (pid cid : Nat) (qty : Int) :
    DB × Except DbErr Bool :=
  if (get_component db cid).isNone then
    (db, .error (.valueErr (compMissingMsg cid)))
  else if qty ≤ 0 then
    (db, .error (.valueErr qtyMsg))
  else if db.projects.any (fun p => p.id = pid) then
    ({db with
        project_components :=
          db.project_components.filter
            (fun l => ¬(l.project_id = pid ∧ l.component_id = cid)) ++
          [⟨pid, cid, qty⟩],
        components :=
          db.components.map (fun c =>
            if c.id = cid ∧ likeContains (projTag pid) c.projects = false then
              {c with projects := trim (c.projects ++ ' ' :: projTag pid)}
            else c)},
     .ok true)
  else
    (db, .ok false)

/-- The tag-string rewrite of `remove_component_from_project`:
`TRIM(REPLACE(' ' || projects || ' ', ' ' || tag || ' ', ' '))`. -/
def removeTagStr (pid : Nat) (s : Str) : Str :=
  trim (replaceAll (' ' :: projTag pid ++ [' ']) [' '] (' ' :: s ++ [' ']))

/-- Embeds `ComponentInventoryDB.remove_component_from_project`: removes the
exact space-delimited `proj_<pid>` token (via `removeTagStr`, literal
`REPLACE`) on the rows whose tag string matches `LIKE '%'||tag||'%'`
(`likeContains`, with the `_` wildcard), then deletes the link row; the
boolean is the DELETE's `rowcount > 0`. -/
def remove_component_from_project (db : DB) (pid cid : Nat) : DB × Bool :=
  ({db with
      components :=
        db.components.map (fun c =>
          if c.id = cid ∧ likeContains (projTag pid) c.projects = true then
            {c with projects := removeTagStr pid c.projects}
          else c),
      project_components :=
        db.project_components.filter
          (fun l => ¬(l.project_id = pid ∧ l.component_id = cid))},
   db.project_components.any (fun l => l.project_id = pid ∧ l.component_id = cid))

/-- One row of the join returned by `get_project_components`. -/
structure PCView where
  id : Nat
  type : Str
  name : Str
  required : Int
  available : Int
  package : Str
  location : Str
deriving DecidableEq

/-- Embeds `ComponentInventoryDB.get_project_components`: the inner join of the
project's link rows with the components table, in link insertion order. -/
def get_project_components (db : DB) (pid : Nat) : List PCView :=
  (db.project_components.filter (fun l => l.project_id = pid)).filterMap
    (fun l =>
      (db.components.find? (fun c => c.id = l.component_id)).map
        (fun c => ⟨c.id, c.type, c.name, l.quantity, c.quantity, c.package, c.location⟩))

/-- The `ValueError` message of `build_project` for a short component. -/
def insufficientMsg (name : Str) (required available : Int) : Str :=
  "Insufficient quantity for ".toList ++ name ++ " (needed: ".toList ++
    intToChars required ++ ", available: ".toList ++ intToChars available ++ [')']

/-- One deduction `UPDATE components SET quantity = quantity - ? WHERE id = ?`;
`none` when the update trips `CHECK(quantity >= 0)` on an updated row. -/
def deductStep (comps : List Component) (v : PCView) : Option (List Component) :=
  let comps2 := comps.map (fun x =>
    if x.id = v.id then {x with quantity := x.quantity - v.required} else x)
  if comps2.any (fun x => x.id = v.id ∧ x.quantity < 0) then none else some comps2

/-- The deduction loop of `build_project`, aborting at the first CHECK
violation as SQLite does. -/
def deductAll (comps : List Component) (views : List PCView) :
    Option (List Component) :=
  views.foldl (fun acc v => acc.bind (fun cs => deductStep cs v)) (some comps)

/-- Embeds `ComponentInventoryDB.build_project`: returns `False` for a missing
project; raises `ValueError` on the first short component before any
write; otherwise deducts every required quantity and marks the project
completed, rolling back (and re-raising) if a deduction trips a CHECK. -/
def build_project (db : DB) (pid : Nat) : DB × Except DbErr Bool :=
  match get_project db pid with
  | none => (db, .ok false)
  | some _ =>
    let views := get_project_components db pid
    match views.find? (fun v => v.available < v.required) with
    | some v =>
      (db, .error (.valueErr (insufficientMsg v.name v.required v.available)))
    | none =>
      match deductAll db.components views with
      | none => (db, .error .integrity)
      | some comps2 =>
        ({db with
            components := comps2,
            projects := db.projects.map (fun p =>
              if p.id = pid then {p with status := .completed} else p)},
         .ok true)

/-- A sequence of `build_project` calls, each acting on the state the
previous call left behind. -/
def run_builds (db : DB) (pids : List Nat) : DB :=
  pids.foldl (fun d p => (build_project d p).1) db

/-- Embeds the shortfall message of `logic.can_build_project`: pure read returning the all-satisfied flag
and the human-readable shortfall messages. -/
def shortMsg (v : PCView) : Str :=
  v.name ++ " (needed: ".toList ++ intToChars v.required ++
    ", available: ".toList ++ intToChars v.available ++ [')']

/-- Embeds `logic.can_build_project` itself. -/
def can_build_project (db : DB) (pid : Nat) : Bool × List Str :=
  let missing :=
    ((get_project_components db pid).filter
      (fun v => v.available < v.required)).map shortMsg
  (missing.length = 0, missing)

/-- Result of the `cmd.py` delete handler: the final state, the ordered
list of states made durable by each `commit()`, whether the handler
cancelled, and the referencing projects it queried up front. -/
structure DeleteTrace where
  final : DB
  commits : List DB
  cancelled : Bool
  used_in : List (Nat × Str)
deriving DecidableEq

/-- The `d` command handler of `cmd.py` (lines 98-120): queries the
referencing projects; without `-f` and with the confirmation declined it
cancels; otherwise it deletes the link rows and blanks the tag string,
commits, then deletes the component row and commits again. -/
def cmd_delete (db : DB) (cid : Nat) (force confirm : Bool) : DeleteTrace :=
  let used_in :=
    (db.project_components.filter (fun l => l.component_id = cid)).filterMap
      (fun l => (db.projects.find? (fun p => p.id = l.project_id)).map
        (fun p => (p.id, p.name)))
  if used_in ≠ [] ∧ force = false ∧ confirm = false then
    ⟨db, [], true, used_in⟩
  else
    let db1 : DB :=
      {db with
        project_components :=
          db.project_components.filter (fun l => l.component_id ≠ cid),
        components := db.components.map (fun c =>
          if c.id = cid then {c with projects := []} else c)}
    let db2 : DB :=
      {db1 with components := db1.components.filter (fun c => c.id ≠ cid)}
    ⟨db2, [db1, db2], false, used_in⟩

/-! ### General lemmas about the embedded SQL primitives -/

theorem find?_append_none {α} (p : α → Bool) (l1 l2 : List α)
    (h : l1.find? p = none) : (l1 ++ l2).find? p = l2.find? p := by
  induction l1 with
  | nil => rfl
  | cons a t ih =>
    cases hpa : p a with
    | true => rw [List.find?_cons_of_pos _ hpa] at h; cases h
    | false =>
      rw [List.find?_cons_of_neg _ (by simp [hpa])] at h
      rw [List.cons_append, List.find?_cons_of_neg _ (by simp [hpa])]
      exact ih h

theorem filter_key_eq {α β} [DecidableEq β] (f : α → β) (k : β) :
    ∀ (l : List α) (x : α), x ∈ l → f x = k → (l.map f).Nodup →
      l.filter (fun y => f y = k) = [x] := by
  intro l
  induction l with
  | nil => intro x hx; cases hx
  | cons a t ih =>
    intro x hx hk hnd
    rw [List.map_cons, List.nodup_cons] at hnd
    obtain ⟨hna, hnd⟩ := hnd
    rcases List.mem_cons.mp hx with rfl | hxt
    · rw [List.filter_cons_of_pos (by simp [hk])]
      have ht : t.filter (fun y => f y = k) = [] := by
        rw [List.filter_eq_nil_iff]
        intro y hy
        simp only [decide_eq_true_eq]
        intro hfy
        exact hna (hk ▸ hfy ▸ List.mem_map_of_mem f hy)
      rw [ht]
    · have hfa : ¬ f a = k := by
        intro hfa
        exact hna (hfa ▸ hk ▸ List.mem_map_of_mem f hxt)
      rw [List.filter_cons_of_neg (by simp [hfa])]
      exact ih x hxt hk hnd

theorem find?_key_eq {α β} [DecidableEq β] (f : α → β) (k : β) :
    ∀ (l : List α) (x : α), x ∈ l → f x = k → (l.map f).Nodup →
      l.find? (fun y => f y = k) = some x := by
  intro l
  induction l with
  | nil => intro x hx; cases hx
  | cons a t ih =>
    intro x hx hk hnd
    rw [List.map_cons, List.nodup_cons] at hnd
    obtain ⟨hna, hnd⟩ := hnd
    rcases List.mem_cons.mp hx with rfl | hxt
    · exact List.find?_cons_of_pos _ (by simp [hk])
    · have hfa : ¬ f a = k := by
        intro hfa
        exact hna (hfa ▸ hk ▸ List.mem_map_of_mem f hxt)
      rw [List.find?_cons_of_neg _ (by simp [hfa])]
      exact ih x hxt hk hnd

theorem likeCharMatch_refl (c : Char) : likeCharMatch c c = true := by
  simp [likeCharMatch]

theorem likeHere_refl (t : Str) : likeHere t t = true := by
  induction t with
  | nil => rfl
  | cons c r ih => simp [likeHere, likeCharMatch_refl, ih]

theorem likeContains_of_append (x t : Str) : likeContains t (x ++ t) = true := by
  induction x with
  | nil =>
    cases t with
    | nil => rfl
    | cons c r => simp [likeContains, likeHere_refl]
  | cons c x ih =>
    rw [List.cons_append]
    simp [likeContains, ih]

theorem ltrim_append (x t : Str)
    (h : t.dropWhile (fun c => decide (c = ' ')) = t) :
    ∃ y, ltrim (x ++ t) = y ++ t := by
  induction x with
  | nil => exact ⟨[], by simpa [ltrim] using h⟩
  | cons c x ih =>
    by_cases hc : c = ' '
    · obtain ⟨y, hy⟩ := ih
      refine ⟨y, ?_⟩
      rw [List.cons_append]
      simpa [ltrim, List.dropWhile_cons, hc] using hy
    · exact ⟨c :: x, by simp [ltrim, List.dropWhile_cons, hc]⟩

theorem rtrim_append (y t : Str) (c : Char) (r : Str)
    (hrev : t.reverse = c :: r) (hc : ¬ c = ' ') : rtrim (y ++ t) = y ++ t := by
  have ht : t = r.reverse ++ [c] := by
    rw [← List.reverse_reverse t, hrev, List.reverse_cons]
  unfold rtrim
  rw [List.reverse_append, hrev, List.cons_append, List.dropWhile_cons]
  simp [hc, ht]

theorem digitCh_ne_space : ∀ k, k < 10 → ¬ digitCh k = ' ' := by decide

theorem natToCharsAux_shape : ∀ (fuel n : Nat) (acc : Str),
    ∃ l, natToCharsAux fuel n acc = l ++ acc ∧
      (fuel ≠ 0 → ∃ l0, l = l0 ++ [digitCh (n % 10)]) := by
  intro fuel
  induction fuel with
  | zero => exact fun n acc => ⟨[], rfl, fun h => absurd rfl h⟩
  | succ fuel ih =>
    intro n acc
    by_cases hn : n < 10
    · exact ⟨[digitCh (n % 10)], by simp [natToCharsAux, hn], fun _ => ⟨[], rfl⟩⟩
    · obtain ⟨l, hl, _⟩ := ih (n / 10) (digitCh (n % 10) :: acc)
      refine ⟨l ++ [digitCh (n % 10)], ?_, fun _ => ⟨l, rfl⟩⟩
      simp only [natToCharsAux, hn, if_false]
      rw [hl]
      simp

theorem natToChars_shape (n : Nat) :
    ∃ l0 k, k < 10 ∧ natToChars n = l0 ++ [digitCh k] := by
  obtain ⟨l, hl, hend⟩ := natToCharsAux_shape (n + 1) n []
  obtain ⟨l0, rfl⟩ := hend (Nat.succ_ne_zero n)
  exact ⟨l0, n % 10, Nat.mod_lt n (by omega), by simpa [natToChars] using hl⟩

theorem trim_append_tag (s : Str) (pid : Nat) :
    ∃ y, trim (s ++ ' ' :: projTag pid) = y ++ projTag pid := by
  obtain ⟨l0, k, hk, hshape⟩ := natToChars_shape pid
  have hhead : (projTag pid).dropWhile (fun c => decide (c = ' ')) = projTag pid := by
    simp [projTag, List.dropWhile_cons]
  have heq : projTag pid = ('p' :: 'r' :: 'o' :: 'j' :: '_' :: l0) ++ [digitCh k] := by
    simp [projTag, hshape]
  have hrev : (projTag pid).reverse =
      digitCh k :: ('p' :: 'r' :: 'o' :: 'j' :: '_' :: l0).reverse := by
    rw [heq]; simp
  have hassoc : s ++ ' ' :: projTag pid = (s ++ [' ']) ++ projTag pid := by simp
  obtain ⟨y, hy⟩ := ltrim_append (s ++ [' ']) (projTag pid) hhead
  refine ⟨y, ?_⟩
  rw [hassoc]
  unfold trim
  rw [hy, rtrim_append y _ _ _ hrev (digitCh_ne_space k hk)]

theorem tag_like_in_trim (s : Str) (pid : Nat) :
    likeContains (projTag pid) (trim (s ++ ' ' :: projTag pid)) = true := by
  obtain ⟨y, hy⟩ := trim_append_tag s pid
  rw [hy]
  exact likeContains_of_append y _

/-! ### Claim theorems -/

/-- C9: `can_build_project` returns all-satisfied `true` together with an
empty shortfall list exactly when every joined project component has
available quantity at least its required quantity, and otherwise returns
`false` together with one `shortMsg` deficit entry (naming the component
and its needed and available quantities) per short component, in order.
The function only reads the state: its embedding consumes `db` and
returns no successor state, mirroring the write-free `logic.py` code. -/
theorem can_build_project_correct (db : DB) (pid : Nat) :
    ((can_build_project db pid).1 = true ↔
      ∀ v ∈ get_project_components db pid, v.required ≤ v.available) ∧
    ((can_build_project db pid).2 = [] ↔
      ∀ v ∈ get_project_components db pid, v.required ≤ v.available) ∧
    (can_build_project db pid).2 =
      ((get_project_components db pid).filter
        (fun v => v.available < v.required)).map shortMsg := by
  refine ⟨?_, ?_, rfl⟩
  · simp only [can_build_project, decide_eq_true_eq, List.length_eq_zero,
      List.map_eq_nil_iff, List.filter_eq_nil_iff, decide_eq_true_eq]
    constructor
    · intro h v hv
      have := h v hv
      omega
    · intro h v hv
      have := h v hv
      omega
  · simp only [can_build_project, List.map_eq_nil_iff, List.filter_eq_nil_iff,
      decide_eq_true_eq]
    constructor
    · intro h v hv
      have := h v hv
      omega
    · intro h v hv
      have := h v hv
      omega

/-- C1: when `build_project` fails because some required component is
short (the first short row of the project's component list being `v`),
it raises the `InsufficientStock` `ValueError` and returns the pre-call
state bit-identically: every component quantity and the project status
keep their pre-call values and no partial deduction is observable. -/
theorem build_project_insufficient_preserves_state (db : DB) (pid : Nat)
    (v : PCView)
    (hp : (get_project db pid).isSome = true)
    (hfind : (get_project_components db pid).find?
      (fun w => w.available < w.required) = some v) :
    build_project db pid =
      (db, .error (.valueErr (insufficientMsg v.name v.required v.available))) := by
  cases hgp : get_project db pid with
  | none => rw [hgp] at hp; cases hp
  | some pr => simp [build_project, hgp, hfind]

/-- C1 witness: a project that needs 20 of a component with 15 in stock
fails with the insufficient-stock error and leaves the store unchanged. -/
def w1comp : Component :=
  ⟨1, "MCU".toList, "STM32F401".toList, 15, "LQFP-64".toList,
   [], [], [], "BinA".toList, [], [] ⟩

/-- C1 witness database: one component, one project requiring 20 of it. -/
def w1db : DB :=
  ⟨[w1comp], [⟨1, "Blinker".toList, [], [], .active⟩], [⟨1, 1, 20⟩], 2, 2⟩

/-- C1 witness: the theorem applied to the concrete short build. -/
theorem build_project_insufficient_preserves_state_witness :
    build_project w1db 1 =
      (w1db, .error (.valueErr
        (insufficientMsg "STM32F401".toList 20 15))) :=
  build_project_insufficient_preserves_state w1db 1
    ⟨1, "MCU".toList, "STM32F401".toList, 20, 15, "LQFP-64".toList, "BinA".toList⟩
    (by decide) (by decide)

theorem deductStep_nonneg (comps comps2 : List Component) (v : PCView)
    (h : ∀ c ∈ comps, 0 ≤ c.quantity) (hstep : deductStep comps v = some comps2) :
    ∀ c ∈ comps2, 0 ≤ c.quantity := by
  unfold deductStep at hstep
  by_cases hany :
      (comps.map (fun x =>
        if x.id = v.id then {x with quantity := x.quantity - v.required} else x)).any
        (fun x => x.id = v.id ∧ x.quantity < 0) = true
  · rw [if_pos hany] at hstep; cases hstep
  · rw [if_neg hany] at hstep
    cases hstep
    have hall : ∀ x ∈ comps.map (fun x =>
        if x.id = v.id then {x with quantity := x.quantity - v.required} else x),
        ¬(x.id = v.id ∧ x.quantity < 0) := by
      intro x hx hcontra
      exact hany (List.any_eq_true.mpr ⟨x, hx, by simpa using hcontra⟩)
    intro c hc
    obtain ⟨c0, hc0, rfl⟩ := List.mem_map.mp hc
    by_cases hid : c0.id = v.id
    · have h2 := hall _ (List.mem_map_of_mem _ hc0)
      rw [if_pos hid] at h2 ⊢
      simp only [not_and, not_lt] at h2
      exact h2 hid
    · simpa [hid] using h c0 hc0

theorem deductFold_none (views : List PCView) :
    views.foldl (fun acc v => acc.bind (fun cs => deductStep cs v)) none = none := by
  induction views with
  | nil => rfl
  | cons v vs ih =>
    rw [List.foldl_cons]
    exact ih

theorem deductAll_nonneg :
    ∀ (views : List PCView) (comps comps2 : List Component),
      (∀ c ∈ comps, 0 ≤ c.quantity) → deductAll comps views = some comps2 →
      ∀ c ∈ comps2, 0 ≤ c.quantity := by
  intro views
  induction views with
  | nil =>
    intro comps comps2 h hall
    cases hall
    exact h
  | cons v vs ih =>
    intro comps comps2 h hall
    unfold deductAll at hall
    rw [List.foldl_cons] at hall
    have hall2 : vs.foldl (fun acc v => acc.bind fun cs => deductStep cs v)
        (deductStep comps v) = some comps2 := hall
    cases hstep : deductStep comps v with
    | none =>
      rw [hstep, deductFold_none] at hall2
      cases hall2
    | some cs1 =>
      rw [hstep] at hall2
      exact ih cs1 comps2 (deductStep_nonneg comps cs1 v h hstep) hall2

theorem build_project_nonneg (db : DB) (pid : Nat)
    (h : ∀ c ∈ db.components, 0 ≤ c.quantity) :
    ∀ c ∈ (build_project db pid).1.components, 0 ≤ c.quantity := by
  unfold build_project
  cases hgp : get_project db pid with
  | none => exact h
  | some pr =>
    cases hfind : (get_project_components db pid).find?
        (fun v => v.available < v.required) with
    | some v => simpa [hfind] using h
    | none =>
      cases hda : deductAll db.components (get_project_components db pid) with
      | none => simpa [hfind, hda] using h
      | some comps2 =>
        simp only [hfind, hda]
        exact deductAll_nonneg _ _ _ h hda

/-- C7: starting from a state in which every component quantity is
non-negative, no sequence of `build_project` calls can make any
component quantity negative in any resulting state: the build deducts
only after checking `available >= required` for each required component
(and any deduction that would still violate `CHECK(quantity >= 0)` rolls
the call back wholesale). -/
theorem run_builds_quantities_nonneg (db : DB) (pids : List Nat)
    (h : ∀ c ∈ db.components, 0 ≤ c.quantity) :
    ∀ c ∈ (run_builds db pids).components, 0 ≤ c.quantity := by
  induction pids generalizing db with
  | nil => exact h
  | cons p ps ih =>
    have hstep := build_project_nonneg db p h
    unfold run_builds
    rw [List.foldl_cons]
    exact ih (build_project db p).1 hstep

/-- C7 witness: building the concrete one-component project from a
non-negative state (15 in stock, 20 required, then 12 required) leaves
every quantity non-negative. -/
theorem run_builds_quantities_nonneg_witness :
    (∀ c ∈ w1db.components, 0 ≤ c.quantity) ∧
    ∀ c ∈ (run_builds w1db [1, 1]).components, 0 ≤ c.quantity :=
  ⟨by decide, run_builds_quantities_nonneg w1db [1, 1] (by decide)⟩

/-- C2: on a store holding no row with `c1`'s natural key, adding `c1`
inserts a fresh row and returns the fresh id, and then adding `c2` with
the same (type, name, package) key merges into that row and returns the
same id: afterwards exactly one row carries the key, its quantity is the
sum of both added quantities, and the store grew by exactly one row. -/
theorem add_component_duplicate_merges (db : DB) (c1 c2 : Component)
    (hNone : findByKey db c1.type c1.name c1.package = none)
    (ht : c2.type = c1.type) (hn : c2.name = c1.name) (hp : c2.package = c1.package)
    (hq1 : 0 ≤ c1.quantity) (hq2 : 0 ≤ c2.quantity)
    (hfresh : ∀ c ∈ db.components, c.id ≠ db.next_component_id) :
    (add_component db c1).2 = .ok db.next_component_id ∧
    (add_component (add_component db c1).1 c2).2 = .ok db.next_component_id ∧
    (add_component (add_component db c1).1 c2).1.components.filter
        (fun c => c.type = c1.type ∧ c.name = c1.name ∧ c.package = c1.package) =
      [{c1 with id := db.next_component_id,
                quantity := c1.quantity + c2.quantity}] ∧
    (add_component (add_component db c1).1 c2).1.components.length =
      db.components.length + 1 := by
  let new : Component := {c1 with id := db.next_component_id}
  let db1 : DB :=
    {db with
      components := db.components ++ [new],
      next_component_id := db.next_component_id + 1}
  have h1 : add_component db c1 = (db1, .ok db.next_component_id) := by
    simp only [add_component, hNone]
    rw [if_neg (by omega : ¬ c1.quantity < 0)]
  have hkey2 : findByKey db1 c2.type c2.name c2.package = some new := by
    show (db.components ++ [new]).find?
        (fun c => c.type = c2.type ∧ c.name = c2.name ∧ c.package = c2.package) =
      some new
    rw [ht, hn, hp, find?_append_none _ _ _ hNone]
    exact List.find?_cons_of_pos _ (by simp [new])
  have hOk : ¬ new.quantity + c2.quantity < 0 := by
    show ¬ c1.quantity + c2.quantity < 0
    omega
  have h2 : add_component db1 c2 =
      ({db1 with
          components :=
            (db.components ++ [new]).map
              (fun c => if c.id = db.next_component_id then
                {c with quantity := c1.quantity + c2.quantity} else c)},
       .ok db.next_component_id) := by
    simp only [add_component, hkey2]
    rw [if_neg hOk]
  have hmapold : db.components.map
      (fun c => if c.id = db.next_component_id then
        {c with quantity := c1.quantity + c2.quantity} else c) = db.components := by
    conv_rhs => rw [← List.map_id db.components]
    exact List.map_congr_left (fun c hc => if_neg (hfresh c hc))
  have hcomps : (add_component (add_component db c1).1 c2).1.components =
      db.components ++
        [{c1 with id := db.next_component_id,
                  quantity := c1.quantity + c2.quantity}] := by
    rw [h1]
    show (add_component db1 c2).1.components = _
    rw [h2]
    show (db.components ++ [new]).map _ = _
    rw [List.map_append, hmapold]
    simp only [List.map_cons, List.map_nil]
    simp
  have hfilterold : db.components.filter
      (fun c => c.type = c1.type ∧ c.name = c1.name ∧ c.package = c1.package) = [] := by
    rw [List.filter_eq_nil_iff]
    exact List.find?_eq_none.mp hNone
  refine ⟨by rw [h1], ?_, ?_, ?_⟩
  · rw [h1]
    show (add_component db1 c2).2 = _
    rw [h2]
  · rw [hcomps, List.filter_append, hfilterold]
    rw [List.filter_cons_of_pos (by simp)]
    rfl
  · rw [hcomps, List.length_append]
    rfl

/-- C2 witness database: empty store. -/
def w2db : DB := ⟨[], [], [], 1, 1⟩

/-- C2 witness candidates: the scenario-A component added with quantity
10 and then again with quantity 5. -/
def w2c1 : Component :=
  ⟨0, "MCU".toList, "STM32F401".toList, 10, "LQFP-64".toList,
   [], [], [], "BinA".toList, [], []⟩

/-- C2 witness second candidate, same key, quantity 5. -/
def w2c2 : Component :=
  ⟨0, "MCU".toList, "STM32F401".toList, 5, "LQFP-64".toList,
   [], [], [], "BinA".toList, [], []⟩

/-- C2 witness: both additions return id 1 and leave one merged row of
quantity 15. -/
theorem add_component_duplicate_merges_witness :
    (add_component w2db w2c1).2 = .ok 1 ∧
    (add_component (add_component w2db w2c1).1 w2c2).2 = .ok 1 ∧
    (add_component (add_component w2db w2c1).1 w2c2).1.components.filter
        (fun c => c.type = w2c1.type ∧ c.name = w2c1.name ∧
          c.package = w2c1.package) =
      [{w2c1 with id := 1, quantity := 15}] ∧
    (add_component (add_component w2db w2c1).1 w2c2).1.components.length =
      w2db.components.length + 1 :=
  add_component_duplicate_merges w2db w2c1 w2c2 (by decide) rfl rfl rfl
    (by decide) (by decide) (by decide)

/-- C10: when `add_component` merges a candidate into an existing row
`e`, only that row's quantity changes: the result returns `e.id`, the
table is the pointwise quantity update, its length is unchanged, and
every resulting row keeps every field other than quantity (and the
quantity too, away from `e.id`) from its pre-call value — the
candidate's location, comment, manufacturer, store_links, tags and
projects values are never written. -/
theorem add_component_merge_frame (db : DB) (c e : Component)
    (hSome : findByKey db c.type c.name c.package = some e)
    (hOk : 0 ≤ e.quantity + c.quantity) :
    (add_component db c).2 = .ok e.id ∧
    (add_component db c).1.components =
      db.components.map (fun x =>
        if x.id = e.id then {x with quantity := e.quantity + c.quantity} else x) ∧
    (add_component db c).1.components.length = db.components.length ∧
    ∀ y ∈ (add_component db c).1.components, ∃ x ∈ db.components,
      y.id = x.id ∧ y.type = x.type ∧ y.name = x.name ∧ y.package = x.package ∧
      y.comment = x.comment ∧ y.manufacturer = x.manufacturer ∧
      y.store_links = x.store_links ∧ y.location = x.location ∧
      y.tags = x.tags ∧ y.projects = x.projects ∧
      (y.id ≠ e.id → y.quantity = x.quantity) := by
  have h2 : add_component db c =
      ({db with components :=
          db.components.map (fun x =>
            if x.id = e.id then {x with quantity := e.quantity + c.quantity}
            else x)},
       .ok e.id) := by
    simp only [add_component, hSome]
    rw [if_neg (by omega : ¬ e.quantity + c.quantity < 0)]
  refine ⟨by rw [h2], by rw [h2], ?_, ?_⟩
  · rw [h2]
    exact List.length_map _ _
  · rw [h2]
    intro y hy
    obtain ⟨x, hx, rfl⟩ := List.mem_map.mp hy
    refine ⟨x, hx, ?_⟩
    by_cases hid : x.id = e.id
    · rw [if_pos hid]
      exact ⟨rfl, rfl, rfl, rfl, rfl, rfl, rfl, rfl, rfl, rfl,
        fun hne => absurd hid hne⟩
    · rw [if_neg hid]
      exact ⟨rfl, rfl, rfl, rfl, rfl, rfl, rfl, rfl, rfl, rfl, fun _ => rfl⟩

/-- C10 witness database: one stored row with distinctive field values. -/
def w10db : DB :=
  ⟨[⟨1, "R".toList, "R1".toList, 10, "0603".toList, "old comment".toList,
     "OldCo".toList, "old-url".toList, "BinA".toList, "oldtag".toList,
     "proj_9".toList⟩], [], [], 2, 1⟩

/-- C10 witness candidate: same key, different optional fields. -/
def w10cand : Component :=
  ⟨0, "R".toList, "R1".toList, 4, "0603".toList, "new comment".toList,
   "NewCo".toList, "new-url".toList, "BinB".toList, "newtag".toList,
   "proj_3".toList⟩

/-- C10 witness: merging the candidate updates only the stored quantity. -/
theorem add_component_merge_frame_witness :
    (add_component w10db w10cand).2 = .ok 1 ∧
    (add_component w10db w10cand).1.components =
      w10db.components.map (fun x =>
        if x.id = 1 then {x with quantity := 14} else x) :=
  ⟨(add_component_merge_frame w10db w10cand
      (w10db.components.headD w10cand) (by decide) (by decide)).1,
   (add_component_merge_frame w10db w10cand
      (w10db.components.headD w10cand) (by decide) (by decide)).2.1⟩

/-- C8: `create_project` is idempotent on the project name.  On a store
whose project names are unique, creating `n` with description `d1` and
then again with `d2` (at any timestamps) returns the same id both times
and leaves exactly one project row named `n`. -/
theorem create_project_idempotent (db : DB) (n d1 d2 now1 now2 : Str)
    (hnames : (db.projects.map (fun p => p.name)).Nodup) :
    (create_project db n d1 now1).2 =
      (create_project (create_project db n d1 now1).1 n d2 now2).2 ∧
    ((create_project (create_project db n d1 now1).1 n d2 now2).1.projects.filter
        (fun p => p.name = n)).length = 1 := by
  cases hf : db.projects.find? (fun p => p.name = n) with
  | some p =>
    have hpn : p.name = n := by
      have := List.find?_some hf
      simpa using this
    have hpm : p ∈ db.projects := List.mem_of_find?_eq_some hf
    have h1 : create_project db n d1 now1 = (db, p.id) := by
      simp only [create_project, hf]
    have h2 : create_project db n d2 now2 = (db, p.id) := by
      simp only [create_project, hf]
    refine ⟨?_, ?_⟩
    · rw [h1]
      show p.id = (create_project db n d2 now2).2
      rw [h2]
    · rw [h1]
      show ((create_project db n d2 now2).1.projects.filter _).length = 1
      rw [h2]
      show (db.projects.filter _).length = 1
      rw [filter_key_eq (fun p => p.name) n db.projects p hpm hpn hnames]
      rfl
  | none =>
    let newP : Project := ⟨db.next_project_id, n, d1, now1, .active⟩
    let db1 : DB :=
      {db with
        projects := db.projects ++ [newP],
        next_project_id := db.next_project_id + 1}
    have h1 : create_project db n d1 now1 = (db1, db.next_project_id) := by
      simp only [create_project, hf]
    have hf2 : db1.projects.find? (fun p => p.name = n) = some newP := by
      show (db.projects ++ [newP]).find? _ = some newP
      rw [find?_append_none _ _ _ hf]
      exact List.find?_cons_of_pos _ (by simp [newP])
    have h2 : create_project db1 n d2 now2 = (db1, newP.id) := by
      simp only [create_project, hf2]
    have hfilterold : db.projects.filter (fun p => p.name = n) = [] := by
      rw [List.filter_eq_nil_iff]
      exact List.find?_eq_none.mp hf
    refine ⟨?_, ?_⟩
    · rw [h1]
      show db.next_project_id = (create_project db1 n d2 now2).2
      rw [h2]
    · rw [h1]
      show ((create_project db1 n d2 now2).1.projects.filter _).length = 1
      rw [h2]
      show ((db.projects ++ [newP]).filter _).length = 1
      rw [List.filter_append, hfilterold]
      rw [List.filter_cons_of_pos (by simp [newP])]
      rfl

/-- C8 witness: creating the project "Blinker" twice on the
single-project store returns id 2 both times and leaves one row. -/
theorem create_project_idempotent_witness :
    (create_project w1db "Blinker2".toList "first".toList [] ).2 =
      (create_project (create_project w1db "Blinker2".toList "first".toList []).1
        "Blinker2".toList "second".toList []).2 ∧
    ((create_project (create_project w1db "Blinker2".toList "first".toList []).1
        "Blinker2".toList "second".toList []).1.projects.filter
        (fun p => p.name = "Blinker2".toList)).length = 1 :=
  create_project_idempotent w1db "Blinker2".toList "first".toList
    "second".toList [] [] (by decide)

/-- C5: deleting a component that is referenced by at least one
`project_components` row without force fails and mutates nothing.  The
store-level `delete_component` raises its in-use `ValueError` and
returns the state unchanged; the front-end delete path without `-f` and
with the confirmation declined likewise commits nothing and carries the
full list of referencing projects (each entry of `used_in` is a
referencing project's id and name, and on a store satisfying the
foreign-key invariant there is at least one). -/
theorem delete_component_in_use_blocked (db : DB) (cid : Nat)
    (l0 : ProjectComponent) (hl0 : l0 ∈ db.project_components)
    (hc0 : l0.component_id = cid)
    (hFk : ∀ l ∈ db.project_components, ∃ p ∈ db.projects, p.id = l.project_id)
    (hPid : (db.projects.map (fun p => p.id)).Nodup) :
    delete_component db cid = (db, .error (.valueErr usedMsg)) ∧
    (cmd_delete db cid false false).final = db ∧
    (cmd_delete db cid false false).cancelled = true ∧
    (cmd_delete db cid false false).commits = [] ∧
    (cmd_delete db cid false false).used_in ≠ [] ∧
    ∀ pr ∈ (cmd_delete db cid false false).used_in,
      (∃ l ∈ db.project_components, l.component_id = cid ∧ l.project_id = pr.1) ∧
      ∃ p ∈ db.projects, p.id = pr.1 ∧ p.name = pr.2 := by
  have hdel : delete_component db cid = (db, .error (.valueErr usedMsg)) := by
    unfold delete_component
    rw [if_pos (List.any_eq_true.mpr ⟨l0, hl0, by simp [hc0]⟩)]
  obtain ⟨p0, hp0, hp0id⟩ := hFk l0 hl0
  have hmem0 : (p0.id, p0.name) ∈
      (db.project_components.filter (fun l => l.component_id = cid)).filterMap
        (fun l => (db.projects.find? (fun p => p.id = l.project_id)).map
          (fun p => (p.id, p.name))) := by
    rw [List.mem_filterMap]
    refine ⟨l0, List.mem_filter.mpr ⟨hl0, by simp [hc0]⟩, ?_⟩
    rw [find?_key_eq (fun p => p.id) l0.project_id db.projects p0 hp0 hp0id hPid]
    rfl
  have hne : (db.project_components.filter (fun l => l.component_id = cid)).filterMap
      (fun l => (db.projects.find? (fun p => p.id = l.project_id)).map
        (fun p => (p.id, p.name))) ≠ [] :=
    List.ne_nil_of_mem hmem0
  have hcmd : cmd_delete db cid false false =
      ⟨db, [], true,
        (db.project_components.filter (fun l => l.component_id = cid)).filterMap
          (fun l => (db.projects.find? (fun p => p.id = l.project_id)).map
            (fun p => (p.id, p.name)))⟩ := by
    unfold cmd_delete
    rw [if_pos ⟨hne, rfl, rfl⟩]
  refine ⟨hdel, by rw [hcmd], by rw [hcmd], by rw [hcmd], by rw [hcmd]; exact hne, ?_⟩
  rw [hcmd]
  intro pr hpr
  obtain ⟨l, hlmem, hlmap⟩ := List.mem_filterMap.mp hpr
  obtain ⟨hlin, hlcid⟩ := List.mem_filter.mp hlmem
  cases hfp : db.projects.find? (fun p => p.id = l.project_id) with
  | none => rw [hfp] at hlmap; cases hlmap
  | some p =>
    rw [hfp] at hlmap
    have hppred : p.id = l.project_id := by
      have := List.find?_some hfp
      simpa using this
    have hpmem : p ∈ db.projects := List.mem_of_find?_eq_some hfp
    cases hlmap
    exact ⟨⟨l, hlin, by simpa using hlcid, hppred.symm⟩, ⟨p, hpmem, rfl, rfl⟩⟩

/-- C5 witness database: one component referenced by one project. -/
def w5db : DB :=
  ⟨[⟨1, "R".toList, "R1".toList, 10, [], [], [], [], "BinA".toList, [],
     "proj_2".toList⟩],
   [⟨2, "Amp".toList, [], [], .active⟩],
   [⟨2, 1, 3⟩], 2, 3⟩

/-- C5 witness: the blocked delete on the concrete referenced component. -/
theorem delete_component_in_use_blocked_witness :
    delete_component w5db 1 = (w5db, .error (.valueErr usedMsg)) ∧
    (cmd_delete w5db 1 false false).final = w5db ∧
    (cmd_delete w5db 1 false false).cancelled = true ∧
    (cmd_delete w5db 1 false false).used_in ≠ [] :=
  have h := delete_component_in_use_blocked w5db 1 ⟨2, 1, 3⟩ (by decide)
    (by decide) (by decide) (by decide)
  ⟨h.1, h.2.1, h.2.2.1, h.2.2.2.2.1⟩

/-- C6 counterexample database: one stored row with quantity 10. -/
def c6db : DB :=
  ⟨[⟨1, "R".toList, "R1".toList, 10, "0603".toList, [], [], [],
     "BinA".toList, [], []⟩], [], [], 2, 1⟩

/-- C6 counterexample candidate: same natural key, quantity -3. -/
def c6cand : Component :=
  ⟨0, "R".toList, "R1".toList, -3, "0603".toList, [], [], [],
   "BinB".toList, [], []⟩

/-- C6 counterexample: a candidate with negative quantity does NOT make
`add_component` fail — on the duplicate-key (merge) path it succeeds,
returns the existing id 1 and writes the decreased quantity 7 to the
store, refuting the claim that a negative candidate quantity always
fails with a validation error and applies no write. -/
theorem add_component_negative_merge_cex :
    c6cand.quantity < 0 ∧
    (add_component c6db c6cand).2 = .ok 1 ∧
    (add_component c6db c6cand).1.components.map (fun c => c.quantity) = [7] := by
  decide

/-- C6 amended: `add_component` enforces only the store-level
`CHECK(quantity >= 0)`.  For a negative-quantity candidate: any failing
call leaves the state untouched; the fresh-insert path always fails with
an integrity error and writes nothing; but the merge path fails exactly
when the merged quantity `existing.quantity + candidate.quantity` would
be negative, and otherwise succeeds, returning the existing row's id. -/
theorem add_component_negative_check (db : DB) (c : Component)
    (hneg : c.quantity < 0) :
    (∀ r e, add_component db c = (r, .error e) → r = db) ∧
    (findByKey db c.type c.name c.package = none →
      add_component db c = (db, .error .integrity)) ∧
    (∀ ex, findByKey db c.type c.name c.package = some ex →
      ex.quantity + c.quantity < 0 →
      add_component db c = (db, .error .integrity)) ∧
    (∀ ex, findByKey db c.type c.name c.package = some ex →
      0 ≤ ex.quantity + c.quantity →
      (add_component db c).2 = .ok ex.id) := by
  refine ⟨?_, ?_, ?_, ?_⟩
  · intro r e hr
    cases hf : findByKey db c.type c.name c.package with
    | some ex =>
      simp only [add_component, hf] at hr
      by_cases hlt : ex.quantity + c.quantity < 0
      · rw [if_pos hlt] at hr
        injection hr with h1 h2
        exact h1.symm
      · rw [if_neg hlt] at hr
        injection hr with h1 h2
        injection h2
    | none =>
      simp only [add_component, hf] at hr
      rw [if_pos hneg] at hr
      injection hr with h1 h2
      exact h1.symm
  · intro hf
    simp only [add_component, hf]
    rw [if_pos hneg]
  · intro ex hf hlt
    simp only [add_component, hf]
    rw [if_pos hlt]
  · intro ex hf hge
    simp only [add_component, hf]
    rw [if_neg (by omega : ¬ ex.quantity + c.quantity < 0)]

/-- C6 amended witness: the theorem applied to the concrete merge that
succeeds with the negative candidate. -/
theorem add_component_negative_check_witness :
    c6cand.quantity < 0 ∧ (add_component c6db c6cand).2 = .ok 1 :=
  ⟨by decide,
   (add_component_negative_check c6db c6cand (by decide)).2.2.2
     (c6db.components.headD c6cand) (by decide) (by decide)⟩

/-- C3 counterexample component: linked to project 12 only, so its tag
string is exactly `proj_12`. -/
def c3comp : Component :=
  ⟨1, "MCU".toList, "STM32F401".toList, 10, "LQFP-64".toList, [], [], [],
   "BinA".toList, [], "proj_12".toList⟩

/-- C3 counterexample database: projects 1 and 12 exist, component 1 is
linked to project 12. -/
def c3db : DB :=
  ⟨[c3comp],
   [⟨1, "P1".toList, [], [], .active⟩, ⟨12, "P12".toList, [], [], .active⟩],
   [⟨12, 1, 2⟩], 2, 13⟩

/-- C3 second counterexample component: its tag string `projx1` has no
project tag at all, yet it matches the LIKE pattern `%proj_1%` because
the pattern's `_` is a single-character wildcard. -/
def c3comp2 : Component :=
  ⟨1, "MCU".toList, "ATMEGA328".toList, 10, "DIP-28".toList, [], [], [],
   "BinB".toList, [], "projx1".toList⟩

/-- C3 second counterexample database: project 1 exists, component 1 has
tag string `projx1` and no links. -/
def c3db2 : DB :=
  ⟨[c3comp2], [⟨1, "P1".toList, [], [], .active⟩], [], 2, 2⟩

/-- C3 counterexample: two runs refute the exact-token claim.  First,
adding component 1 to project 1 on `c3db` succeeds and creates the link
row, and the exact token `proj_1` was not present beforehand, yet
afterwards the tag string still has no `proj_1` token — the guard
`LIKE '%proj_1%'` is already satisfied by the unrelated token `proj_12`
(its `_` matches the literal `_`), so the append is skipped.  Second, on
`c3db2`, whose tag string `projx1` matches the pattern only through the
`_` wildcard, the successful add again skips the append and afterwards
`proj_1` occurs neither as a token nor even as a literal substring,
while the link row exists — the denormalized tag string is inconsistent
with the link table. -/
theorem add_to_project_token_missing_cex :
    projTag 1 ∉ tokens c3comp.projects ∧
    (add_component_to_project c3db 1 1 5).2 = .ok true ∧
    (⟨1, 1, 5⟩ : ProjectComponent) ∈
      (add_component_to_project c3db 1 1 5).1.project_components ∧
    (∀ c ∈ (add_component_to_project c3db 1 1 5).1.components,
      c.id = 1 → projTag 1 ∉ tokens c.projects) ∧
    (add_component_to_project c3db2 1 1 5).2 = .ok true ∧
    (⟨1, 1, 5⟩ : ProjectComponent) ∈
      (add_component_to_project c3db2 1 1 5).1.project_components ∧
    ∀ c ∈ (add_component_to_project c3db2 1 1 5).1.components,
      c.id = 1 → c.projects = "projx1".toList ∧
        projTag 1 ∉ tokens c.projects ∧
        isSubstring (projTag 1) c.projects = false := by
  decide

/-- C3 amended: a successful `add_component_to_project` upserts the link
row and guarantees only that the component's tag string afterwards
matches the SQL pattern `%proj_<pid>%`, in which the tag's `_` is the
LIKE single-character wildcard and letters compare
ASCII-case-insensitively; the tag is appended exactly when no such
LIKE match was already present.  Neither the exact `proj_<pid>` token
nor even its literal substring presence is guaranteed, so tag/link-table
consistency (I5) does not hold. -/
theorem add_to_project_appends_like_match (db : DB) (pid cid : Nat) (qty : Int)
    (db' : DB) (h : add_component_to_project db pid cid qty = (db', .ok true)) :
    (⟨pid, cid, qty⟩ : ProjectComponent) ∈ db'.project_components ∧
    ∀ c ∈ db'.components, c.id = cid →
      likeContains (projTag pid) c.projects = true := by
  unfold add_component_to_project at h
  by_cases h1 : (get_component db cid).isNone = true
  · rw [if_pos h1] at h
    injection h with ha hb
    injection hb
  · rw [if_neg h1] at h
    by_cases h2 : qty ≤ 0
    · rw [if_pos h2] at h
      injection h with ha hb
      injection hb
    · rw [if_neg h2] at h
      by_cases h3 : db.projects.any (fun p => p.id = pid) = true
      · rw [if_pos h3] at h
        injection h with ha hb
        subst ha
        refine ⟨List.mem_append.mpr (Or.inr (List.mem_singleton.mpr rfl)), ?_⟩
        intro c hc
        obtain ⟨c0, hc0, rfl⟩ := List.mem_map.mp hc
        by_cases hcond : c0.id = cid ∧ likeContains (projTag pid) c0.projects = false
        · rw [if_pos hcond]
          intro hcid
          exact tag_like_in_trim c0.projects pid
        · rw [if_neg hcond]
          intro hcid
          cases hsub : likeContains (projTag pid) c0.projects
          · exact absurd ⟨hcid, hsub⟩ hcond
          · rfl
      · rw [if_neg h3] at h
        injection h with ha hb
        injection hb with hb2
        cases hb2

/-- C3 amended witness: the theorem applied to the concrete successful
add of component 1 to project 1. -/
theorem add_to_project_appends_like_match_witness :
    (⟨1, 1, 5⟩ : ProjectComponent) ∈
      (add_component_to_project c3db 1 1 5).1.project_components ∧
    ∀ c ∈ (add_component_to_project c3db 1 1 5).1.components, c.id = 1 →
      likeContains (projTag 1) c.projects = true :=
  add_to_project_appends_like_match c3db 1 1 5
    (add_component_to_project c3db 1 1 5).1 (by decide)

/-- C4 counterexample database: component 1 referenced by project 2. -/
def c4db : DB :=
  ⟨[⟨1, "R".toList, "R1".toList, 10, [], [], [], [], "BinA".toList, [],
     "proj_2".toList⟩],
   [⟨2, "Amp".toList, [], [], .active⟩],
   [⟨2, 1, 3⟩], 2, 3⟩

/-- C4 counterexample intermediate state: the snapshot the handler
commits after removing the link rows and blanking the tag string but
before deleting the component row. -/
def c4dbMid : DB :=
  ⟨[⟨1, "R".toList, "R1".toList, 10, [], [], [], [], "BinA".toList, [], []⟩],
   [⟨2, "Amp".toList, [], [], .active⟩],
   [], 2, 3⟩

/-- C4 counterexample: the forced delete is NOT one transaction — the
handler commits twice, and the first committed snapshot is a partial
application (link rows already removed, component row still present)
distinct from both the pre-call state and the final state, refuting the
claim that no partial application is ever observable. -/
theorem cmd_delete_two_commits_cex :
    (cmd_delete c4db 1 true true).commits =
      [c4dbMid, (cmd_delete c4db 1 true true).final] ∧
    c4dbMid ≠ c4db ∧
    c4dbMid ≠ (cmd_delete c4db 1 true true).final ∧
    c4dbMid.components.any (fun c => c.id = 1) = true ∧
    c4dbMid.project_components = [] := by
  decide

/-- C4 amended: the forced front-end delete does reach the claimed end
state — afterwards no `project_components` row references the id and the
Component row is gone, and the tag string is cleared in every committed
snapshot — but it executes as two transactions (first the link removal
plus tag clear, then the row delete), so the intermediate committed
state, with the links removed and the row still present, is observable
between the two commits. -/
theorem cmd_delete_force_cascade (db : DB) (cid : Nat) (confirm : Bool) :
    (cmd_delete db cid true confirm).cancelled = false ∧
    (∀ l ∈ (cmd_delete db cid true confirm).final.project_components,
      l.component_id ≠ cid) ∧
    (∀ c ∈ (cmd_delete db cid true confirm).final.components, c.id ≠ cid) ∧
    (cmd_delete db cid true confirm).commits.length = 2 ∧
    ∀ d ∈ (cmd_delete db cid true confirm).commits,
      (∀ l ∈ d.project_components, l.component_id ≠ cid) ∧
      (∀ c ∈ d.components, c.id = cid → c.projects = []) := by
  have hred : cmd_delete db cid true confirm =
      ⟨{db with
          project_components :=
            db.project_components.filter (fun l => l.component_id ≠ cid),
          components :=
            (db.components.map (fun c =>
              if c.id = cid then {c with projects := []} else c)).filter
              (fun c => c.id ≠ cid)},
        [{db with
            project_components :=
              db.project_components.filter (fun l => l.component_id ≠ cid),
            components :=
              db.components.map (fun c =>
                if c.id = cid then {c with projects := []} else c)},
         {db with
            project_components :=
              db.project_components.filter (fun l => l.component_id ≠ cid),
            components :=
              (db.components.map (fun c =>
                if c.id = cid then {c with projects := []} else c)).filter
                (fun c => c.id ≠ cid)}],
        false,
        (db.project_components.filter (fun l => l.component_id = cid)).filterMap
          (fun l => (db.projects.find? (fun p => p.id = l.project_id)).map
            (fun p => (p.id, p.name)))⟩ := by
    unfold cmd_delete
    rw [if_neg (fun hcon => nomatch hcon.2.1)]
  have hclear : ∀ c ∈ db.components.map (fun c =>
      if c.id = cid then {c with projects := []} else c),
      c.id = cid → c.projects = ([] : Str) := by
    intro c hc
    obtain ⟨c0, hc0, rfl⟩ := List.mem_map.mp hc
    by_cases h0 : c0.id = cid
    · rw [if_pos h0]
      intro hcid
      rfl
    · rw [if_neg h0]
      intro hcid
      exact absurd hcid h0
  rw [hred]
  refine ⟨rfl, ?_, ?_, rfl, ?_⟩
  · intro l hl
    have := (List.mem_filter.mp hl).2
    simpa using this
  · intro c hc
    have := (List.mem_filter.mp hc).2
    simpa using this
  · intro d hd
    rcases List.mem_cons.mp hd with rfl | hd2
    · refine ⟨?_, hclear⟩
      intro l hl
      have := (List.mem_filter.mp hl).2
      simpa using this
    · rcases List.mem_cons.mp hd2 with rfl | hd3
      · refine ⟨?_, ?_⟩
        · intro l hl
          have := (List.mem_filter.mp hl).2
          simpa using this
        · intro c hc
          exact hclear c (List.mem_of_mem_filter hc)
      · cases hd3

end Inv
